import Mathlib

/-!
Verification development for the Adaptive Penalty Method (APM) kernel,
a C/C++ implementation of the penalty scheme of Barbosa and Lemonge (2003).

The repository contains two parallel implementations of the same kernel:
`apm.c` (free functions) and `AdaptivePenaltyMethod.cpp` (a class in
namespace `apm` with cached instance state).  Both are embedded shallowly
here: C `double`s are modelled as rationals (`ℚ`), arrays as lists, the
`for` loops as folds over `List.range`, and the C++ instance as an explicit
state record threaded through the methods.  Division follows the source
expressions verbatim; the places where the source divides by a quantity
that can be zero are examined in the theorems below.
-/

/-! ## Embedding of `apm.c` -/

/-- The accumulation loop `for (i...) sumObjectiveFunction += objectiveFunctionValues[i]`
from `calculatePenalizationCoefficients` (apm.c, lines 59-65). -/
def sumObjectiveFunction (objectiveFunctionValues : List ℚ) : ℚ :=
  objectiveFunctionValues.foldl (fun s v => s + v) 0

/-- The sign fix-up `if (sumObjectiveFunction < 0) sumObjectiveFunction = -sumObjectiveFunction`
(apm.c, lines 67-69): the absolute value of the accumulated sum. -/
def absSumObjectiveFunction (objectiveFunctionValues : List ℚ) : ℚ :=
  let s := sumObjectiveFunction objectiveFunctionValues
  if s < 0 then -s else s

/-- The inner loop `for (i...) sumViolation[l] += constraintViolationValues[i][l]`
(apm.c, lines 81-86): the raw (unclamped) column sum of the violation matrix. -/
def sumViolation (constraintViolationValues : List (List ℚ)) (l : ℕ) : ℚ :=
  constraintViolationValues.foldl (fun s row => s + row.getD l 0) 0

/-- The accumulation `denominator += sumViolation[l] * sumViolation[l]`
over `l = 0..numberOfConstraints-1` (apm.c, lines 79-89). -/
def denominator (constraintViolationValues : List (List ℚ))
    (numberOfConstraints : ℕ) : ℚ :=
  (List.range numberOfConstraints).foldl
    (fun d l => d + sumViolation constraintViolationValues l *
      sumViolation constraintViolationValues l) 0

/-- The two outputs of `calculatePenalizationCoefficients` in apm.c: the array
`penalizationCoefficients` and the scalar `*averageObjectiveFunctionValues`. -/
structure CalibrationResult where
  penalizationCoefficients : List ℚ
  averageObjectiveFunctionValues : ℚ
  deriving Repr, DecidableEq

/-- Embedding of `calculatePenalizationCoefficients` (apm.c, lines 48-101).
The population size parameter of the C function is the length of
`objectiveFunctionValues`.  Note the source computes
`(sumObjectiveFunction / denominator) * sumViolation[j]` with no guard on
`denominator` and accumulates `sumViolation` without clamping at zero. -/
def calculatePenalizationCoefficients (objectiveFunctionValues : List ℚ)
    (constraintViolationValues : List (List ℚ))
    (numberOfConstraints : ℕ) : CalibrationResult :=
  let s := absSumObjectiveFunction objectiveFunctionValues
  let avg := s / (objectiveFunctionValues.length : ℚ)
  let d := denominator constraintViolationValues numberOfConstraints
  { penalizationCoefficients :=
      (List.range numberOfConstraints).map
        (fun j => s / d * sumViolation constraintViolationValues j)
    averageObjectiveFunctionValues := avg }

/-- The flag accumulation `infeasible |= constraintViolationValues[i][j] > 0`
over `j = 0..numberOfConstraints-1` (apm.c, line 158 / line 221). -/
def infeasibleFlag (constraintViolationValues : List ℚ)
    (numberOfConstraints : ℕ) : Bool :=
  (List.range numberOfConstraints).foldl
    (fun b j => b || decide (constraintViolationValues.getD j 0 > 0)) false

/-- The accumulation
`penalization += penalizationCoefficients[j] * constraintViolationValues[i][j]`
over `j = 0..numberOfConstraints-1` (apm.c, line 160 / line 223). -/
def penalization (penalizationCoefficients constraintViolationValues : List ℚ)
    (numberOfConstraints : ℕ) : ℚ :=
  (List.range numberOfConstraints).foldl
    (fun p j => p + penalizationCoefficients.getD j 0 *
      constraintViolationValues.getD j 0) 0

/-- Embedding of the scalar `calculateFitness` (apm.c, lines 201-234). -/
def calculateFitness (objectiveFunctionValue : ℚ)
    (constraintViolationValues : List ℚ) (numberOfConstraints : ℕ)
    (penalizationCoefficients : List ℚ)
    (averageObjectiveFunctionValues : ℚ) : ℚ :=
  if infeasibleFlag constraintViolationValues numberOfConstraints then
    if objectiveFunctionValue > averageObjectiveFunctionValues then
      objectiveFunctionValue +
        penalization penalizationCoefficients constraintViolationValues
          numberOfConstraints
    else
      averageObjectiveFunctionValues +
        penalization penalizationCoefficients constraintViolationValues
          numberOfConstraints
  else objectiveFunctionValue

/-- Embedding of `calculateAllFitness` (apm.c, lines 134-173): the outer loop
writes `fitnessValues[i]` for each candidate `i`; the body is transcribed
from the source (lines 149-171). -/
def calculateAllFitness (objectiveFunctionValues : List ℚ)
    (constraintViolationValues : List (List ℚ)) (numberOfConstraints : ℕ)
    (penalizationCoefficients : List ℚ)
    (averageObjectiveFunctionValues : ℚ) : List ℚ :=
  (List.range objectiveFunctionValues.length).map (fun i =>
    let row := constraintViolationValues.getD i []
    let obj := objectiveFunctionValues.getD i 0
    if infeasibleFlag row numberOfConstraints then
      if obj > averageObjectiveFunctionValues then
        obj + penalization penalizationCoefficients row numberOfConstraints
      else
        averageObjectiveFunctionValues +
          penalization penalizationCoefficients row numberOfConstraints
    else obj)

/-! ## Embedding of `AdaptivePenaltyMethod.cpp` (namespace `apm`) -/

namespace apm

/-- The instance state of the C++ class `apm::AdaptivePenaltyMethod`
(AdaptivePenaltyMethod.hpp): the constraint count fixed at construction and
the two fields cached by the calibrator for later use by the evaluator. -/
structure AdaptivePenaltyMethod where
  numberOfConstraints : ℕ
  sumViolation : List ℚ
  averageObjectiveFunctionValues : ℚ
  deriving Repr, DecidableEq

/-- Embedding of `AdaptivePenaltyMethod::calculatePenalizationCoefficients`
(AdaptivePenaltyMethod.cpp, lines 62-108).  The method mutates the instance
fields `sumViolation` and `averageObjectiveFunctionValues` and writes the
caller's `penalizationCoefficients` array; the embedding returns the updated
state together with that array. -/
def AdaptivePenaltyMethod.calculatePenalizationCoefficients
    (self : AdaptivePenaltyMethod) (objectiveFunctionValues : List ℚ)
    (constraintViolationValues : List (List ℚ)) :
    AdaptivePenaltyMethod × List ℚ :=
  let s0 := objectiveFunctionValues.foldl (fun s v => s + v) 0
  let s := if s0 < 0 then -s0 else s0
  let avg := s / (objectiveFunctionValues.length : ℚ)
  let sv := (List.range self.numberOfConstraints).map
    (fun l => constraintViolationValues.foldl (fun t row => t + row.getD l 0) 0)
  let d := sv.foldl (fun t x => t + x * x) 0
  let coeffs := (List.range self.numberOfConstraints).map
    (fun j => s / d * sv.getD j 0)
  ({ self with sumViolation := sv, averageObjectiveFunctionValues := avg },
    coeffs)

/-- Embedding of the batch `AdaptivePenaltyMethod::calculateFitness`
(AdaptivePenaltyMethod.cpp, lines 114-151).  The method body assigns only to
the caller's `fitnessValues` array and to its local variables; it writes no
instance field, so the embedding returns the state unchanged alongside the
fitness list. -/
def AdaptivePenaltyMethod.calculateFitness (self : AdaptivePenaltyMethod)
    (objectiveFunctionValues : List ℚ)
    (constraintViolationValues : List (List ℚ))
    (penalizationCoefficients : List ℚ) :
    AdaptivePenaltyMethod × List ℚ :=
  (self,
    (List.range objectiveFunctionValues.length).map (fun i =>
      let row := constraintViolationValues.getD i []
      let obj := objectiveFunctionValues.getD i 0
      let infeasible := (List.range self.numberOfConstraints).foldl
        (fun b j => b || decide (row.getD j 0 > 0)) false
      let pen := (List.range self.numberOfConstraints).foldl
        (fun p j => p + penalizationCoefficients.getD j 0 * row.getD j 0) 0
      if infeasible then
        if obj > self.averageObjectiveFunctionValues then obj + pen
        else self.averageObjectiveFunctionValues + pen
      else obj))

/-- Embedding of the scalar `AdaptivePenaltyMethod::calculateFitness` overload
(AdaptivePenaltyMethod.cpp, lines 157-188), renamed `calculateFitnessSingle`
because Lean does not overload.  It reads the instance fields and returns a
scalar, writing nothing. -/
def AdaptivePenaltyMethod.calculateFitnessSingle (self : AdaptivePenaltyMethod)
    (objectiveFunctionValue : ℚ) (constraintViolationValues : List ℚ)
    (penalizationCoefficients : List ℚ) : ℚ :=
  let infeasible := (List.range self.numberOfConstraints).foldl
    (fun b j => b || decide (constraintViolationValues.getD j 0 > 0)) false
  let pen := (List.range self.numberOfConstraints).foldl
    (fun p j => p + penalizationCoefficients.getD j 0 *
      constraintViolationValues.getD j 0) 0
  if infeasible then
    if objectiveFunctionValue > self.averageObjectiveFunctionValues then
      objectiveFunctionValue + pen
    else self.averageObjectiveFunctionValues + pen
  else objectiveFunctionValue

end apm

/-! ## Bridging lemmas: folds as sums -/

/-- A left fold that adds `g x` for each element equals the initial
accumulator plus the sum of the mapped list. -/
lemma foldl_add_map {α : Type} (g : α → ℚ) (a : ℚ) (l : List α) :
    l.foldl (fun s x => s + g x) a = a + (l.map g).sum := by
  induction l generalizing a with
  | nil => simp
  | cons x xs ih => simp [List.foldl_cons, ih, add_assoc]

/-- A left fold that ORs `p x` for each element equals the initial
accumulator ORed with `l.any p`. -/
lemma foldl_or_any {α : Type} (p : α → Bool) (b : Bool) (l : List α) :
    l.foldl (fun c x => c || p x) b = (b || l.any p) := by
  induction l generalizing b with
  | nil => simp
  | cons x xs ih => simp [List.foldl_cons, ih, Bool.or_assoc]

/-- Summing a function mapped over `List.range n` is the `Finset.range` sum. -/
lemma sum_map_range (f : ℕ → ℚ) (n : ℕ) :
    ((List.range n).map f).sum = ∑ i in Finset.range n, f i := by
  induction n with
  | zero => simp
  | succ n ih =>
      rw [List.range_succ, List.map_append, List.sum_append,
        Finset.sum_range_succ, ih]
      simp

/-- `sumViolation` is the column sum of the violation matrix, indexed over
the rows. -/
lemma sumViolation_eq_sum (cvv : List (List ℚ)) (l : ℕ) :
    sumViolation cvv l =
      ∑ i in Finset.range cvv.length, (cvv.getD i []).getD l 0 := by
  rw [sumViolation, foldl_add_map (fun row => row.getD l 0) 0 cvv, zero_add]
  induction cvv with
  | nil => simp
  | cons r rs ih =>
      rw [List.map_cons, List.sum_cons, ih, List.length_cons,
        Finset.sum_range_succ']
      simp [add_comm]

/-- `denominator` is the sum of the squares of the column sums. -/
lemma denominator_eq_sum (cvv : List (List ℚ)) (C : ℕ) :
    denominator cvv C =
      ∑ l in Finset.range C, sumViolation cvv l * sumViolation cvv l := by
  rw [denominator]
  rw [show (fun (d : ℚ) l => d + sumViolation cvv l * sumViolation cvv l) =
    (fun d l => d + (fun l => sumViolation cvv l * sumViolation cvv l) l) from rfl]
  rw [foldl_add_map, zero_add, sum_map_range]

/-- `penalization` is the sum over all constraint indices of
coefficient times violation value. -/
lemma penalization_eq_sum (coeffs row : List ℚ) (C : ℕ) :
    penalization coeffs row C =
      ∑ j in Finset.range C, coeffs.getD j 0 * row.getD j 0 := by
  rw [penalization]
  rw [show (fun (p : ℚ) j => p + coeffs.getD j 0 * row.getD j 0) =
    (fun p j => p + (fun j => coeffs.getD j 0 * row.getD j 0) j) from rfl]
  rw [foldl_add_map, zero_add, sum_map_range]

/-- The infeasibility flag is true exactly when some constraint index below
`C` has a positive violation value. -/
lemma infeasibleFlag_iff (row : List ℚ) (C : ℕ) :
    infeasibleFlag row C = true ↔ ∃ j < C, 0 < row.getD j 0 := by
  rw [infeasibleFlag, foldl_or_any, Bool.false_or, List.any_eq_true]
  constructor
  · rintro ⟨j, hj, hpos⟩
    exact ⟨j, List.mem_range.mp hj, by simpa using of_decide_eq_true hpos⟩
  · rintro ⟨j, hj, hpos⟩
    exact ⟨j, List.mem_range.mpr hj, by simpa using decide_eq_true (by simpa using hpos)⟩

/-- `sumObjectiveFunction` is the plain list sum. -/
lemma sumObjectiveFunction_eq_sum (objs : List ℚ) :
    sumObjectiveFunction objs = objs.sum := by
  rw [sumObjectiveFunction, foldl_add_map (fun x : ℚ => x) 0 objs, zero_add]
  simp

/-- `absSumObjectiveFunction` is the absolute value of the list sum. -/
lemma absSumObjectiveFunction_eq_abs (objs : List ℚ) :
    absSumObjectiveFunction objs = |objs.sum| := by
  rw [absSumObjectiveFunction, sumObjectiveFunction_eq_sum]
  rcases lt_or_le objs.sum 0 with h | h
  · simp [h, abs_of_neg h]
  · simp [not_lt.mpr h, abs_of_nonneg h]

/-- Indexing a map over `List.range n` below the bound gives the function
value at the index. -/
lemma getD_map_range {α : Type} (f : ℕ → α) (d : α) {i n : ℕ} (h : i < n) :
    ((List.range n).map f).getD i d = f i := by
  rw [List.getD_eq_getElem _ _ (by simpa using h)]
  simp

/-- A `getD` lookup below the length is a member of the list. -/
lemma getD_mem_of_lt {α : Type} (l : List α) (d : α) {i : ℕ}
    (h : i < l.length) : l.getD i d ∈ l := by
  rw [List.getD_eq_getElem _ _ h]
  exact List.getElem_mem h

/-- The absolute-value fix-up makes the objective sum non-negative. -/
lemma absSumObjectiveFunction_nonneg (objs : List ℚ) :
    0 ≤ absSumObjectiveFunction objs := by
  rw [absSumObjectiveFunction_eq_abs]
  exact abs_nonneg _

/-- The denominator, a sum of squares, is non-negative. -/
lemma denominator_nonneg (cvv : List (List ℚ)) (C : ℕ) :
    0 ≤ denominator cvv C := by
  rw [denominator_eq_sum]
  exact Finset.sum_nonneg fun l _ => mul_self_nonneg _

/-- Every `getD` lookup with default `0` in a list of non-negative values is
non-negative. -/
lemma getD_nonneg {row : List ℚ} (h : ∀ x ∈ row, 0 ≤ x) (j : ℕ) :
    0 ≤ row.getD j 0 := by
  rcases lt_or_le j row.length with hj | hj
  · exact h _ (getD_mem_of_lt row 0 hj)
  · rw [List.getD_eq_default _ _ hj]

/-- If every violation entry is non-negative, every column sum is too. -/
lemma sumViolation_nonneg {cvv : List (List ℚ)}
    (h : ∀ row ∈ cvv, ∀ x ∈ row, 0 ≤ x) (l : ℕ) :
    0 ≤ sumViolation cvv l := by
  rw [sumViolation_eq_sum]
  refine Finset.sum_nonneg fun i hi => ?_
  exact getD_nonneg (h _ (getD_mem_of_lt cvv [] (List.mem_range.mp hi))) l

/-!
## Claims
-/

/-- C1: the claim states that `calculatePenalizationCoefficients` computes
`sumViolation[l]` as `Σ_i max(constraintViolationValues[i][l], 0)`, so that
entries `≤ 0` contribute zero.  The code (apm.c line 84,
AdaptivePenaltyMethod.cpp line 94) accumulates the raw values without the
clamp: for the one-candidate, one-constraint population with violation value
`-1`, the code's column sum is `-1`, whereas the claimed clamped sum is
`max(-1, 0) = 0`. -/
theorem C1_sumViolation_unclamped :
    sumViolation [[-1]] 0 = -1 ∧ sumViolation [[-1]] 0 ≠ max (-1 : ℚ) 0 := by
  have h : sumViolation [[-1]] 0 = -1 := by norm_num [sumViolation]
  refine ⟨h, ?_⟩
  rw [h, show max (-1 : ℚ) 0 = 0 from by norm_num]
  norm_num

/-- C2: the claim states that the coefficient computation guards the
denominator, returning `0` coefficients when `Σ_l sumViolation[l]^2 = 0`
without performing a division by zero.  The code (apm.c line 94,
AdaptivePenaltyMethod.cpp line 104) has no such guard: for the fully
feasible population `P = 1`, `C = 1`, objectives `[1]`, violations `[[0]]`,
the denominator is `0`, yet each coefficient is computed by the unguarded
expression `(sumObjectiveFunction / denominator) * sumViolation[j]`, an
actual division by the zero denominator (which in the source's IEEE double
arithmetic yields `inf * 0 = NaN`, not the claimed `0`). -/
theorem C2_division_by_zero_denominator :
    denominator [[0]] 1 = 0 ∧
      (calculatePenalizationCoefficients [1] [[0]] 1).penalizationCoefficients =
        [absSumObjectiveFunction [1] / denominator [[0]] 1 *
          sumViolation [[0]] 0] := by
  constructor
  · norm_num [denominator, sumViolation, List.range_succ]
  · simp [calculatePenalizationCoefficients, List.range_succ]

/-- C3 counterexample: the claim states that the evaluator's penalty sums
`penalizationCoefficients[j] * constraintViolationValues[i][j]` only over
violated constraints (`> 0`).  With coefficients `[1, 1]` and violation row
`[2, -1]`, the code's accumulation (apm.c line 160) gives
`1*2 + 1*(-1) = 1`, while the claimed violated-only sum is `2`. -/
theorem C3_counterexample :
    penalization [1, 1] [2, -1] 2 = 1 ∧
      (∑ j in Finset.range 2,
        if 0 < (([2, -1] : List ℚ).getD j 0) then
          (([1, 1] : List ℚ).getD j 0) * (([2, -1] : List ℚ).getD j 0)
        else 0) = 2 := by
  constructor
  · norm_num [penalization, List.range_succ]
  · rw [Finset.sum_range_succ, Finset.sum_range_succ, Finset.sum_range_zero]
    norm_num

/-- C3 amended: the evaluator's penalty is the sum of
`penalizationCoefficients[j] * constraintViolationValues[i][j]` over ALL
constraint indices `j < C`, with no restriction to violated constraints:
entries `≤ 0` contribute their (zero or negative) product. -/
theorem C3_penalization_all_constraints (coeffs row : List ℚ) (C : ℕ) :
    penalization coeffs row C =
      ∑ j in Finset.range C, coeffs.getD j 0 * row.getD j 0 :=
  penalization_eq_sum coeffs row C

/-- C4: the batch Fitness Evaluator returns the raw objective value for a
feasible candidate (all violation values at indices below `C` are `≤ 0`,
regardless of the coefficients), and
`max(objective, averageObjective) + penalization` for an infeasible one
(some violation value `> 0`), as coded by the conditional at apm.c
lines 167-169 / AdaptivePenaltyMethod.cpp lines 145-147. -/
theorem C4_fitness_branches (objs : List ℚ) (cvv : List (List ℚ)) (C : ℕ)
    (coeffs : List ℚ) (avg : ℚ) (i : ℕ) (h : i < objs.length) :
    ((∀ j < C, (cvv.getD i []).getD j 0 ≤ 0) →
      (calculateAllFitness objs cvv C coeffs avg).getD i 0 = objs.getD i 0) ∧
    ((∃ j < C, 0 < (cvv.getD i []).getD j 0) →
      (calculateAllFitness objs cvv C coeffs avg).getD i 0 =
        max (objs.getD i 0) avg + penalization coeffs (cvv.getD i []) C) := by
  have hbody : (calculateAllFitness objs cvv C coeffs avg).getD i 0 =
      (if infeasibleFlag (cvv.getD i []) C then
        (if objs.getD i 0 > avg then
          objs.getD i 0 + penalization coeffs (cvv.getD i []) C
        else avg + penalization coeffs (cvv.getD i []) C)
      else objs.getD i 0) := by
    rw [calculateAllFitness]
    exact getD_map_range _ _ h
  constructor
  · intro hfeas
    have hflag : infeasibleFlag (cvv.getD i []) C = false := by
      rcases hf : infeasibleFlag (cvv.getD i []) C with _ | _
      · rfl
      · obtain ⟨j, hj, hpos⟩ := (infeasibleFlag_iff _ _).mp hf
        exact absurd hpos (not_lt.mpr (hfeas j hj))
    rw [hbody, hflag]
    simp
  · intro hinf
    have hflag : infeasibleFlag (cvv.getD i []) C = true :=
      (infeasibleFlag_iff _ _).mpr hinf
    rw [hbody, hflag]
    rcases le_or_lt (objs.getD i 0) avg with h2 | h2
    · rw [if_pos rfl, if_neg (not_lt.mpr h2), max_eq_right h2]
    · rw [if_pos rfl, if_pos h2, max_eq_left h2.le]

/-- C4 witness: the one-candidate population with objective `3`, violation
`[1]`, coefficient `[2]` and average `5` is infeasible and gets fitness
`max(3, 5) + penalization`. -/
theorem C4_fitness_branches_witness :
    (calculateAllFitness [3] [[1]] 1 [2] 5).getD 0 0 =
      max (3 : ℚ) 5 + penalization [2] [1] 1 := by
  have h := C4_fitness_branches [3] [[1]] 1 [2] 5 0 (by norm_num)
  simpa using h.2 ⟨0, by norm_num, by norm_num⟩

/-- C5 counterexample: the claim states every calibrated coefficient is
non-negative.  For the population `P = 1`, objectives `[1]`, violation
matrix `[[1, -2]]`, the code computes `sumViolation = [1, -2]`,
denominator `5`, and coefficient `(1/5) * (-2) = -2/5 < 0` for the second
constraint. -/
theorem C5_counterexample :
    (calculatePenalizationCoefficients [1] [[1, -2]] 2).penalizationCoefficients.getD 1 0 < 0 := by
  norm_num [calculatePenalizationCoefficients, absSumObjectiveFunction,
    sumObjectiveFunction, denominator, sumViolation, List.range_succ]

/-- C5 amended: every calibrated penalty coefficient is non-negative
provided every constraint-violation value in the population is
non-negative (the violation convention under which APM is stated); with
negative entries allowed, coefficients can be negative. -/
theorem C5_coefficients_nonneg (objs : List ℚ) (cvv : List (List ℚ))
    (C j : ℕ) (h : ∀ row ∈ cvv, ∀ x ∈ row, 0 ≤ x) :
    0 ≤ (calculatePenalizationCoefficients objs cvv C).penalizationCoefficients.getD j 0 := by
  have hq : (calculatePenalizationCoefficients objs cvv C).penalizationCoefficients =
      (List.range C).map (fun l =>
        absSumObjectiveFunction objs / denominator cvv C * sumViolation cvv l) := rfl
  rw [hq]
  rcases lt_or_le j C with hj | hj
  · rw [getD_map_range _ _ hj]
    exact mul_nonneg
      (div_nonneg (absSumObjectiveFunction_nonneg objs) (denominator_nonneg cvv C))
      (sumViolation_nonneg h j)
  · rw [List.getD_eq_default _ _ (by simpa using hj)]

/-- C5 witness: with objectives `[1]` and violation matrix `[[1, 0]]`
(all entries non-negative), the first coefficient is non-negative. -/
theorem C5_coefficients_nonneg_witness :
    0 ≤ (calculatePenalizationCoefficients [1] [[1, 0]] 2).penalizationCoefficients.getD 0 0 := by
  refine C5_coefficients_nonneg [1] [[1, 0]] 2 0 ?_
  intro row hrow x hx
  fin_cases hrow
  fin_cases hx <;> norm_num

/-- C6 counterexample: the claim states that whenever exactly one entry of
the violation matrix is `> 0`, say at constraint `l`, the coefficient for
`l` equals `|sumObjective| / sumViolation[l]`.  For `P = 1`, objectives
`[2]`, matrix `[[1, -1]]`, only the entry at constraint `0` is positive,
yet the negative entry at constraint `1` contributes `(-1)^2` to the
denominator: the code returns coefficient `(2/2)*1 = 1`, while
`|sumObjective| / sumViolation[0] = 2/1 = 2`. -/
theorem C6_counterexample :
    (calculatePenalizationCoefficients [2] [[1, -1]] 2).penalizationCoefficients.getD 0 0 = 1 ∧
    absSumObjectiveFunction [2] / sumViolation [[1, -1]] 0 = 2 ∧
    (calculatePenalizationCoefficients [2] [[1, -1]] 2).penalizationCoefficients.getD 0 0 ≠
      absSumObjectiveFunction [2] / sumViolation [[1, -1]] 0 := by
  refine ⟨?_, ?_, ?_⟩ <;>
    norm_num [calculatePenalizationCoefficients, absSumObjectiveFunction,
      sumObjectiveFunction, denominator, sumViolation, List.range_succ]

/-- C6 amended: if exactly one entry of the `P×C` violation matrix is
non-zero — the entry at candidate `i0`, constraint `l`, which is positive —
then the calibrated coefficient for `l` is
`|sumObjective| / sumViolation[l]`, the denominator reducing to
`sumViolation[l]^2`. -/
theorem C6_single_positive_entry (objs : List ℚ) (cvv : List (List ℚ))
    (C l i0 : ℕ) (hl : l < C) (hi0 : i0 < cvv.length)
    (hpos : 0 < (cvv.getD i0 []).getD l 0)
    (hzero : ∀ i < cvv.length, ∀ j < C, ¬(i = i0 ∧ j = l) →
      (cvv.getD i []).getD j 0 = 0) :
    (calculatePenalizationCoefficients objs cvv C).penalizationCoefficients.getD l 0 =
      absSumObjectiveFunction objs / sumViolation cvv l := by
  set v := (cvv.getD i0 []).getD l 0 with hv
  have hsvl : sumViolation cvv l = v := by
    rw [sumViolation_eq_sum]
    exact Finset.sum_eq_single i0
      (fun i hi hne =>
        hzero i (List.mem_range.mp (by simpa using hi)) l hl fun hc => hne hc.1)
      (fun hni => absurd (Finset.mem_range.mpr hi0) hni)
  have hsv0 : ∀ j < C, j ≠ l → sumViolation cvv j = 0 := by
    intro j hj hne
    rw [sumViolation_eq_sum]
    refine Finset.sum_eq_zero fun i hi => ?_
    exact hzero i (List.mem_range.mp (by simpa using hi)) j hj fun hc => hne hc.2
  have hden : denominator cvv C = v * v := by
    rw [denominator_eq_sum, ← hsvl]
    refine Finset.sum_eq_single_of_mem l (Finset.mem_range.mpr hl) ?_
    intro j hj hne
    show sumViolation cvv j * sumViolation cvv j = 0
    rw [hsv0 j (Finset.mem_range.mp hj) hne, mul_zero]
  have hq : (calculatePenalizationCoefficients objs cvv C).penalizationCoefficients =
      (List.range C).map (fun j =>
        absSumObjectiveFunction objs / denominator cvv C * sumViolation cvv j) := rfl
  rw [hq, getD_map_range _ _ hl, hden, hsvl]
  have hvne : v ≠ 0 := ne_of_gt hpos
  field_simp
  ring

/-- C6 witness: objectives `[2]`, matrix `[[1, 0]]`: the only non-zero
entry is the positive entry at constraint `0`, and the coefficient equals
`|sumObjective| / sumViolation[0]`. -/
theorem C6_single_positive_entry_witness :
    (calculatePenalizationCoefficients [2] [[1, 0]] 2).penalizationCoefficients.getD 0 0 =
      absSumObjectiveFunction [2] / sumViolation [[1, 0]] 0 := by
  refine C6_single_positive_entry [2] [[1, 0]] 2 0 0 (by norm_num) (by norm_num)
    (by norm_num) ?_
  intro i hi j hj hne
  have hi0 : i = 0 := Nat.lt_one_iff.mp (by simpa using hi)
  subst hi0
  interval_cases j
  · exact absurd ⟨rfl, rfl⟩ hne
  · norm_num

/-- C7: the Coefficient Calibrator outputs the average objective value
`|Σ_i objectiveFunctionValues[i]| / P` (apm.c lines 59-72,
AdaptivePenaltyMethod.cpp lines 71-84). -/
theorem C7_average_objective (objs : List ℚ) (cvv : List (List ℚ)) (C : ℕ)
    (h : 1 ≤ objs.length) :
    (calculatePenalizationCoefficients objs cvv C).averageObjectiveFunctionValues =
      |objs.sum| / (objs.length : ℚ) := by
  have hq : (calculatePenalizationCoefficients objs cvv C).averageObjectiveFunctionValues =
      absSumObjectiveFunction objs / (objs.length : ℚ) := rfl
  rw [hq, absSumObjectiveFunction_eq_abs]

/-- C7 witness: for objectives `[3, -5]`, the average is `|-2| / 2 = 1`. -/
theorem C7_average_objective_witness :
    (calculatePenalizationCoefficients [3, -5] [[1], [2]] 1).averageObjectiveFunctionValues =
      |([3, -5] : List ℚ).sum| / (([3, -5] : List ℚ).length : ℚ) :=
  C7_average_objective [3, -5] [[1], [2]] 1 (by norm_num)

/-- C8: at every in-range position `i`, the batch Fitness Evaluator stores
exactly the value the single-candidate form returns on that candidate's
objective value and violation row, both for the C pair
(`calculateAllFitness` / scalar `calculateFitness`) and for the C++ pair
(the two `AdaptivePenaltyMethod::calculateFitness` overloads). -/
theorem C8_scalar_batch_agree (objs : List ℚ) (cvv : List (List ℚ)) (C : ℕ)
    (coeffs sv : List ℚ) (avg : ℚ) (i : ℕ) (h : i < objs.length) :
    (calculateAllFitness objs cvv C coeffs avg).getD i 0 =
      calculateFitness (objs.getD i 0) (cvv.getD i []) C coeffs avg ∧
    ((apm.AdaptivePenaltyMethod.mk C sv avg).calculateFitness objs cvv coeffs).2.getD i 0 =
      (apm.AdaptivePenaltyMethod.mk C sv avg).calculateFitnessSingle
        (objs.getD i 0) (cvv.getD i []) coeffs := by
  refine ⟨?_, ?_⟩ <;> exact getD_map_range _ _ h

/-- C8 witness: population `[1]` with violation matrix `[[2]]`, one
constraint, coefficients `[3]`, average `0`, at index `0`. -/
theorem C8_scalar_batch_agree_witness :
    (calculateAllFitness [1] [[2]] 1 [3] 0).getD 0 0 =
      calculateFitness (([1] : List ℚ).getD 0 0) (([[2]] : List (List ℚ)).getD 0 []) 1 [3] 0 ∧
    ((apm.AdaptivePenaltyMethod.mk 1 [0] 0).calculateFitness [1] [[2]] [3]).2.getD 0 0 =
      (apm.AdaptivePenaltyMethod.mk 1 [0] 0).calculateFitnessSingle
        (([1] : List ℚ).getD 0 0) (([[2]] : List (List ℚ)).getD 0 []) [3] :=
  C8_scalar_batch_agree [1] [[2]] 1 [3] [0] 0 0 (by norm_num)

/-- C9: the batch Fitness Evaluator of the C++ class writes only the
fitness output: the returned state is the input state, so the cached
`sumViolation` and `averageObjectiveFunctionValues` fields are unchanged;
in this embedding the objective values, violation matrix and coefficient
vector are immutable inputs, so the fitness list is the call's sole
output, matching the source method, whose only assignments are to
`fitnessValues[i]` and to its own locals (AdaptivePenaltyMethod.cpp,
lines 114-151). -/
theorem C9_evaluator_preserves_state (self : apm.AdaptivePenaltyMethod)
    (objs : List ℚ) (cvv : List (List ℚ)) (coeffs : List ℚ) :
    (self.calculateFitness objs cvv coeffs).1 = self ∧
    (self.calculateFitness objs cvv coeffs).1.sumViolation = self.sumViolation ∧
    (self.calculateFitness objs cvv coeffs).1.averageObjectiveFunctionValues =
      self.averageObjectiveFunctionValues :=
  ⟨rfl, rfl, rfl⟩

/-- C10: on every input, the C implementation and the C++ implementation
agree: the calibrators produce the same coefficient vector and the same
average objective value, and the evaluators (batch and scalar) produce the
same fitness values, when the C++ instance is constructed with the same
constraint count (and, for evaluation, carries the same average). -/
theorem C10_c_cpp_equivalence (objs : List ℚ) (cvv : List (List ℚ)) (C : ℕ)
    (sv0 coeffs row : List ℚ) (avg0 avg obj1 : ℚ) :
    ((apm.AdaptivePenaltyMethod.mk C sv0 avg0).calculatePenalizationCoefficients objs cvv).2 =
      (calculatePenalizationCoefficients objs cvv C).penalizationCoefficients ∧
    ((apm.AdaptivePenaltyMethod.mk C sv0 avg0).calculatePenalizationCoefficients objs cvv).1.averageObjectiveFunctionValues =
      (calculatePenalizationCoefficients objs cvv C).averageObjectiveFunctionValues ∧
    ((apm.AdaptivePenaltyMethod.mk C sv0 avg).calculateFitness objs cvv coeffs).2 =
      calculateAllFitness objs cvv C coeffs avg ∧
    (apm.AdaptivePenaltyMethod.mk C sv0 avg).calculateFitnessSingle obj1 row coeffs =
      calculateFitness obj1 row C coeffs avg := by
  refine ⟨?_, rfl, rfl, rfl⟩
  show (List.range C).map
      (fun j => absSumObjectiveFunction objs /
        (((List.range C).map (fun l => sumViolation cvv l)).foldl
          (fun t x => t + x * x) 0) *
        (((List.range C).map (fun l => sumViolation cvv l)).getD j 0)) =
    (List.range C).map
      (fun j => absSumObjectiveFunction objs / denominator cvv C *
        sumViolation cvv j)
  have hd : ((List.range C).map (fun l => sumViolation cvv l)).foldl
      (fun t x => t + x * x) 0 = denominator cvv C := by
    rw [foldl_add_map (fun x : ℚ => x * x) 0 _, zero_add, List.map_map,
      denominator,
      foldl_add_map (fun l => sumViolation cvv l * sumViolation cvv l) 0 _,
      zero_add]
    rfl
  refine List.map_congr_left fun j hj => ?_
  rw [hd, getD_map_range _ _ (List.mem_range.mp hj)]
